import Mathlib

/-!
Verification of the batched extraction pipeline in
`moseq2_extract/helpers/extract.py`.

Arrays are shallowly embedded as nested lists: a stack of frames is a
`List (List (List Int))` (frame x row x column).  Elementwise numpy mask
assignments become `List.zipWith` over matching positions; numpy slices
`a[offset:]` become `List.drop`; a Python `IndexError` is an `Option`
failure.  The external collaborators (frame loader + `extract_chunk`,
`extract_command`) are abstracted as function parameters of the drivers,
exactly at the interface the source calls them.
-/

/-- One stack of 2-D frames: frame index, then row, then column. -/
abbrev Frames3 : Type := List (List (List Int))

/-- Pointwise over one row: `a[b < t] = v` restricted to a single row pair,
from line 66 of `extract.py` (numpy boolean-mask assignment is pointwise). -/
def assignRow (a b : List Int) (t v : Int) : List Int :=
  List.zipWith (fun x y => if y < t then v else x) a b

/-- Pointwise over one frame (rows of `a` against rows of `b`). -/
def assignFrame (a b : List (List Int)) (t v : Int) : List (List Int) :=
  List.zipWith (fun ra rb => assignRow ra rb t v) a b

/-- Elementwise `a[b < t] = v` over whole frame stacks. -/
def maskAssignLT (a b : Frames3) (t v : Int) : Frames3 :=
  List.zipWith (fun fa fb => assignFrame fa fb t v) a b

/-- Lines 66-67 of `extract.py`:
`results['mask_frames'][results['depth_frames'] < min_height] = tracking_model_ll_clip`
followed by
`results['mask_frames'][results['mask_frames'] < tracking_model_ll_clip] = tracking_model_ll_clip`. -/
def clip_mask_frames (mask depth : Frames3) (min_height tracking_model_ll_clip : Int) : Frames3 :=
  maskAssignLT (maskAssignLT mask depth min_height tracking_model_ll_clip)
    (maskAssignLT mask depth min_height tracking_model_ll_clip)
    tracking_model_ll_clip tracking_model_ll_clip

/-- Read one element of a frame stack; `none` when any level is out of bounds. -/
def idx3 (a : Frames3) (f r c : Nat) : Option Int :=
  a[f]?.bind fun fr => fr[r]?.bind fun row => row[c]?

/-- Python negative indexing `l[-k]` (for `k = chunk_overlap + 1 ≥ 1`):
valid exactly when `k ≤ len(l)`, otherwise an `IndexError` (`none`). -/
def pyNegIndex (l : List Int) (k : Nat) : Option Int :=
  if 1 ≤ k ∧ k ≤ l.length then l[l.length - k]? else none

/-- Result dict of `extract_chunk` as consumed by the helpers: depth frames,
mask frames, the scalar series dict, flip flags, the raw chunk, and the
tracker parameter traces `results['parameters']['mean']` / `['cov']`
(the per-frame mean/cov summaries, carried as opaque `Int` payloads). -/
structure ExtractionResult where
  depth_frames : Frames3
  mask_frames : Frames3
  scalars : String → List Int
  flips : List Int
  chunk : Frames3
  parameters_mean : List Int
  parameters_cov : List Int

/-- `set_tracking_model_parameters` (lines 47-73): clip the mask frames, then
read the tracking estimators from index `-(chunk_overlap + 1)` of the
parameter traces; a trace shorter than `chunk_overlap + 1` raises
(`none`), exactly as the unguarded numpy access would. -/
def set_tracking_model_parameters (results : ExtractionResult)
    (min_height tracking_model_ll_clip : Int) (chunk_overlap : Nat) :
    Option (ExtractionResult × Int × Int) :=
  let clipped := { results with
    mask_frames := clip_mask_frames results.mask_frames results.depth_frames
      min_height tracking_model_ll_clip }
  match pyNegIndex clipped.parameters_mean (chunk_overlap + 1),
        pyNegIndex clipped.parameters_cov (chunk_overlap + 1) with
  | some m, some c => some (clipped, m, c)
  | _, _ => none

/-- The data written to the h5 file by one `write_extracted_chunk_to_h5` call:
each dataset receives the named slice of the results at the committed
frame range. -/
structure H5ChunkWrite where
  scalarWrites : List (String × List Nat × List Int)
  framesWrite : List Nat × Frames3
  maskWrite : List Nat × Frames3
  flipsWrite : Option (List Nat × List Int)
deriving DecidableEq

/-- `write_extracted_chunk_to_h5` (lines 17-45): every array/series of the
results is written from `offset` onward into the dataset at `frame_range`;
flips are written only when `flip_classifier` is configured. -/
def write_extracted_chunk_to_h5 (results : ExtractionResult) (flip_classifier : Bool)
    (scalars : List String) (frame_range : List Nat) (offset : Nat) : H5ChunkWrite :=
  { scalarWrites := scalars.map fun s => (s, frame_range, (results.scalars s).drop offset)
    framesWrite := (frame_range, results.depth_frames.drop offset)
    maskWrite := (frame_range, results.mask_frames.drop offset)
    flipsWrite := if flip_classifier then some (frame_range, results.flips.drop offset) else none }

/-- The `'uint16'` cast applied when storing values into the output-movie
array created by `np.zeros(..., 'uint16')`. -/
def toUInt16Val (v : Int) : Int := v % 65536

/-- One composited preview frame (lines 90-97): a `(rows+cr) x (cols+cc)`
zero array, whose top-left `cr x cc` block is assigned the cropped subject
frame and whose bottom-right `rows x cols` block is assigned the raw chunk
frame (the second assignment in the source would win on overlap, hence it
is tested first; the two blocks are in fact disjoint). -/
def composite_frame (cr cc rows cols : Nat) (depth chunk : List (List Int)) : List (List Int) :=
  (List.range (rows + cr)).map fun r =>
    (List.range (cols + cc)).map fun c =>
      if cr ≤ r ∧ cc ≤ c then toUInt16Val ((chunk.getD (r - cr) []).getD (c - cc) 0)
      else if r < cr ∧ c < cc then toUInt16Val ((depth.getD r []).getD c 0)
      else 0

/-- `make_output_movie` (lines 75-99): `nframes, rows, cols` come from
`results['chunk'][offset:].shape`; one composited frame is built per
committed index from `depth_frames[offset:]` and `chunk[offset:]`. -/
def make_output_movie (results : ExtractionResult) (cr cc : Nat) (offset : Nat) : Frames3 :=
  let chunkS := results.chunk.drop offset
  let rows := (chunkS.headD []).length
  let cols := ((chunkS.headD []).headD []).length
  List.zipWith (fun dfr chfr => composite_frame cr cc rows cols dfr chfr)
    (results.depth_frames.drop offset) chunkS

/-- State of the preview encoder pipe (`video_pipe`): whether it is open,
and how many times it was spawned / closed over the run. -/
structure PipeState where
  opened : Bool
  opens : Nat
  closes : Nat
deriving DecidableEq

/-- `write_frames_preview(..., pipe=video_pipe, close_pipe=False, ...)`:
spawns the encoder on the first call (when the pipe is `None`) and only
feeds it afterwards; it never closes the pipe inside the loop. -/
def write_frames_preview (p : PipeState) : PipeState :=
  if p.opened then p else { opened := true, opens := p.opens + 1, closes := p.closes }

/-- What one loop iteration of `process_extract_batches` commits: the
tracking state passed into the `extract_chunk` call, the (possibly
clipped) results, the offset, the committed frame range, the h5 write
(when an h5 file is open) and the composited preview frames. -/
structure BatchRecord where
  inMean : Option Int
  inCov : Option Int
  results : ExtractionResult
  offset : Nat
  committedRange : List Nat
  h5write : Option H5ChunkWrite
  movie : Frames3

/-- Outcome of a `process_extract_batches` run: the per-batch records in
order, whether the run completed (`ok = false` models an uncaught
exception propagating out of the loop), the pipe state at exit, and the
final tracking state. -/
structure DriverOutput where
  records : List BatchRecord
  ok : Bool
  pipe : PipeState
  finalMean : Option Int
  finalCov : Option Int

/-- Lines 152-154 of the loop: when `use_tracking_model` is set, the results
are clipped and the tracking state is re-seeded from the parameter trace
(an exception propagates as `none`); otherwise the results and the
tracking state pass through unchanged. -/
def tracking_step (use_tracking_model : Bool) (results0 : ExtractionResult)
    (min_height tracking_model_ll_clip : Int) (chunk_overlap : Nat)
    (tracking_init_mean tracking_init_cov : Option Int) :
    Option (ExtractionResult × Option Int × Option Int) :=
  if use_tracking_model then
    match set_tracking_model_parameters results0 min_height tracking_model_ll_clip
        chunk_overlap with
    | some (r, m, c) => some (r, some m, some c)
    | none => none
  else some (results0, tracking_init_mean, tracking_init_cov)

/-- The loop of `process_extract_batches` (lines 134-174).  `extract`
abstracts `load_movie_data` + `extract_chunk` as a function of the
tracking state and the frame range.  `i` is the `enumerate` counter.
On exhaustion the final `video_pipe.communicate()` closes an open pipe;
an exception (short parameter trace in `set_tracking_model_parameters`)
aborts immediately, without reaching that close. -/
def process_extract_batches_loop
    (extract : Option Int → Option Int → List Nat → ExtractionResult)
    (use_tracking_model : Bool) (min_height tracking_model_ll_clip : Int)
    (chunk_overlap : Nat) (flip_classifier : Bool) (scalars : List String)
    (h5_open : Bool) (cr cc : Nat)
    (tracking_init_mean tracking_init_cov : Option Int)
    (p : PipeState) (i : Nat) : List (List Nat) → DriverOutput
  | [] =>
      { records := []
        ok := true
        pipe := if p.opened then { p with closes := p.closes + 1 } else p
        finalMean := tracking_init_mean
        finalCov := tracking_init_cov }
  | frame_range :: rest =>
      let offset := if 0 < i then chunk_overlap else 0
      match tracking_step use_tracking_model
          (extract tracking_init_mean tracking_init_cov frame_range)
          min_height tracking_model_ll_clip chunk_overlap
          tracking_init_mean tracking_init_cov with
      | none =>
          { records := []
            ok := false
            pipe := p
            finalMean := tracking_init_mean
            finalCov := tracking_init_cov }
      | some (results, m2, c2) =>
          let committed := frame_range.drop offset
          let h5w := if h5_open then
              some (write_extracted_chunk_to_h5 results flip_classifier scalars committed offset)
            else none
          let movie := make_output_movie results cr cc offset
          let p2 := write_frames_preview p
          let out := process_extract_batches_loop extract use_tracking_model min_height
            tracking_model_ll_clip chunk_overlap flip_classifier scalars h5_open cr cc
            m2 c2 p2 (i + 1) rest
          { out with records :=
              { inMean := tracking_init_mean
                inCov := tracking_init_cov
                results := results
                offset := offset
                committedRange := committed
                h5write := h5w
                movie := movie } :: out.records }

/-- `process_extract_batches` entry: tracking state is popped from the
config (possibly absent) and the pipe starts as `None`. -/
def process_extract_batches
    (extract : Option Int → Option Int → List Nat → ExtractionResult)
    (use_tracking_model : Bool) (min_height tracking_model_ll_clip : Int)
    (chunk_overlap : Nat) (flip_classifier : Bool) (scalars : List String)
    (h5_open : Bool) (cr cc : Nat)
    (tracking_init_mean tracking_init_cov : Option Int)
    (frame_batches : List (List Nat)) : DriverOutput :=
  process_extract_batches_loop extract use_tracking_model min_height tracking_model_ll_clip
    chunk_overlap flip_classifier scalars h5_open cr cc
    tracking_init_mean tracking_init_cov
    { opened := false, opens := 0, closes := 0 } 0 frame_batches

/-- Placeholder results dict, used only as a `getD` default. -/
def emptyResult : ExtractionResult :=
  { depth_frames := [], mask_frames := [], scalars := fun _ => [], flips := []
    chunk := [], parameters_mean := [], parameters_cov := [] }

/-- Placeholder batch record, used only as a `getD` default. -/
def defaultRecord : BatchRecord :=
  { inMean := none, inCov := none, results := emptyResult, offset := 0
    committedRange := [], h5write := none, movie := [] }

/-- Per-session log entry of `run_local_extract`: `none` on success,
the printed error message on failure. -/
def session_outcome (r : Except String Unit) : Option String :=
  match r with
  | Except.ok _ => none
  | Except.error e => some e

/-- `run_local_extract` (lines 176-198): run `extract_command` on every
session; a raised exception is caught, logged with the session, and the
loop continues with the next session. -/
def run_local_extract (extract_command : String → Except String Unit) :
    List String → List (String × Option String)
  | [] => []
  | ext :: rest =>
      (ext, session_outcome (extract_command ext)) :: run_local_extract extract_command rest

/-- Modelled from the spec: the batch scheduler (`gen_batch_sequence`, not
among the sources) starts range `k` at `k * (C - O)`. -/
def batchStart (C O k : Nat) : Nat := k * (C - O)

/-- Modelled from the spec: range `k` is `[k*(C-O), k*(C-O)+C)` clipped to
`[0, N)`. -/
def batchRange (N C O k : Nat) : List Nat :=
  List.range' (min (batchStart C O k) N)
    (min (batchStart C O k + C) N - min (batchStart C O k) N)

/-- Modelled from the spec: number of scheduled ranges — ranges are
generated while they still contribute new indices, and at least one range
exists for a non-empty video (`N=25, C=10, O=2` gives three ranges). -/
def numBatches (N C O : Nat) : Nat :=
  if N = 0 then 0 else max 1 ((N - O + (C - O) - 1) / (C - O))

/-- The committed part of range `k`: its first `O` indices are dropped for
every batch but the first (the Overlap Reconciler of lines 140 and 157). -/
def committedRange (N C O k : Nat) : List Nat :=
  (batchRange N C O k).drop (if k = 0 then 0 else O)

/-- Concatenation, in order, of all committed ranges of a run. -/
def allCommitted (N C O : Nat) : List Nat :=
  ((List.range (numBatches N C O)).map (committedRange N C O)).flatten

/-! ### Concrete inputs used by witnesses and counterexamples -/

/-- A small concrete results dict with parameter traces of length 3. -/
def exResultA : ExtractionResult :=
  { depth_frames := [[[1]], [[1]], [[1]], [[1]]]
    mask_frames := [[[3]], [[3]], [[3]], [[3]]]
    scalars := fun s => if s = "area" then [9, 8, 7, 6] else []
    flips := [0, 1, 0, 1]
    chunk := [[[2]], [[2]], [[2]], [[2]]]
    parameters_mean := [10, 20, 30]
    parameters_cov := [40, 50, 60] }

/-- A concrete stub for the frame loader + extraction-algorithm collaborator
that always returns `exResultA`. -/
def exExtractA (_m _c : Option Int) (_fr : List Nat) : ExtractionResult := exResultA

/-- A concrete run with tracking enabled, three two-frame batches with
overlap 1, an open h5 file and a configured flip classifier. -/
def exRunA : DriverOutput :=
  process_extract_batches exExtractA true 10 5 1 true ["area"] true 0 0 none none
    [[0, 1], [1, 2], [2, 3]]

/-- A collaborator stub whose second batch returns empty parameter traces,
so that `set_tracking_model_parameters` raises there. -/
def exExtractFail (_m _c : Option Int) (fr : List Nat) : ExtractionResult :=
  if fr = [0] then exResultA else emptyResult

/-- A concrete run whose second batch raises mid-loop, after the preview
pipe was opened by the first batch. -/
def exRunFail : DriverOutput :=
  process_extract_batches exExtractFail true 10 5 1 false [] false 0 0 none none
    [[0], [1]]

/-- A concrete results dict with short (length-1) parameter traces. -/
def exResultShort : ExtractionResult :=
  { emptyResult with parameters_mean := [10], parameters_cov := [40] }

/-- A concrete `extract_command` stub that raises on the session "bad". -/
def exCommand : String → Except String Unit := fun s =>
  if s = "bad" then Except.error "boom" else Except.ok Unit.unit

/-! ## Helper lemmas on the elementwise mask assignment -/

theorem zipWith_getElem_bind {α β γ : Type} (f : α → β → γ) (l1 : List α) (l2 : List β)
    (i : Nat) :
    (List.zipWith f l1 l2)[i]? = l1[i]?.bind fun a => l2[i]?.map fun b => f a b := by
  rw [List.getElem?_zipWith]
  cases l1[i]? <;> cases l2[i]? <;> rfl

theorem assignRow_getElem (a b : List Int) (t v : Int) (i : Nat) :
    (assignRow a b t v)[i]? = a[i]?.bind fun x => b[i]?.map fun y => if y < t then v else x := by
  unfold assignRow
  exact zipWith_getElem_bind _ a b i

theorem assignFrame_idx2 (a b : List (List Int)) (t v : Int) (r c : Nat) :
    (assignFrame a b t v)[r]?.bind (fun row => row[c]?) =
      (a[r]?.bind fun ra => ra[c]?).bind fun x =>
        (b[r]?.bind fun rb => rb[c]?).map fun y => if y < t then v else x := by
  unfold assignFrame
  rw [zipWith_getElem_bind]
  cases a[r]? with
  | none => rfl
  | some ra =>
    cases b[r]? with
    | none => simp
    | some rb =>
      exact assignRow_getElem ra rb t v c

theorem maskAssignLT_idx3 (a b : Frames3) (t v : Int) (f r c : Nat) :
    idx3 (maskAssignLT a b t v) f r c =
      (idx3 a f r c).bind fun x => (idx3 b f r c).map fun y => if y < t then v else x := by
  unfold idx3 maskAssignLT
  rw [zipWith_getElem_bind]
  cases a[f]? with
  | none => rfl
  | some fa =>
    cases b[f]? with
    | none => simp
    | some fb =>
      exact assignFrame_idx2 fa fb t v r c

theorem clip_mask_frames_idx3 (mask depth : Frames3) (mh v : Int) (f r c : Nat) :
    idx3 (clip_mask_frames mask depth mh v) f r c =
      (idx3 mask f r c).bind fun mx => (idx3 depth f r c).map fun dx =>
        if dx < mh then v else if mx < v then v else mx := by
  unfold clip_mask_frames
  rw [maskAssignLT_idx3, maskAssignLT_idx3]
  cases idx3 mask f r c with
  | none => rfl
  | some mx =>
    cases idx3 depth f r c with
    | none => rfl
    | some dx =>
      simp only [Option.some_bind, Option.map_some']
      refine congrArg some ?_
      split_ifs <;> omega

theorem assignRow_clip_idem (mh v : Int) : ∀ (rm rd : List Int),
    assignRow
      (assignRow (assignRow (assignRow rm rd mh v) (assignRow rm rd mh v) v v) rd mh v)
      (assignRow (assignRow (assignRow rm rd mh v) (assignRow rm rd mh v) v v) rd mh v) v v
    = assignRow (assignRow rm rd mh v) (assignRow rm rd mh v) v v
  | [], _ => by simp [assignRow]
  | _ :: _, [] => by simp [assignRow]
  | x :: xs, y :: ys => by
    have ih := assignRow_clip_idem mh v xs ys
    simp only [assignRow, List.zipWith_cons_cons] at ih ⊢
    rw [List.cons_eq_cons]
    refine ⟨?_, ih⟩
    split_ifs <;> omega

theorem assignFrame_clip_idem (mh v : Int) : ∀ (fm fd : List (List Int)),
    assignFrame
      (assignFrame (assignFrame (assignFrame fm fd mh v) (assignFrame fm fd mh v) v v) fd mh v)
      (assignFrame (assignFrame (assignFrame fm fd mh v) (assignFrame fm fd mh v) v v) fd mh v) v v
    = assignFrame (assignFrame fm fd mh v) (assignFrame fm fd mh v) v v
  | [], _ => by simp [assignFrame]
  | _ :: _, [] => by simp [assignFrame]
  | x :: xs, y :: ys => by
    have ih := assignFrame_clip_idem mh v xs ys
    simp only [assignFrame, List.zipWith_cons_cons] at ih ⊢
    rw [List.cons_eq_cons]
    exact ⟨assignRow_clip_idem mh v x y, ih⟩

theorem clip_mask_frames_idem_aux (mh v : Int) : ∀ (m d : Frames3),
    clip_mask_frames (clip_mask_frames m d mh v) d mh v = clip_mask_frames m d mh v
  | [], _ => by simp [clip_mask_frames, maskAssignLT]
  | _ :: _, [] => by simp [clip_mask_frames, maskAssignLT]
  | x :: xs, y :: ys => by
    have ih := clip_mask_frames_idem_aux mh v xs ys
    simp only [clip_mask_frames, maskAssignLT, List.zipWith_cons_cons] at ih ⊢
    rw [List.cons_eq_cons]
    exact ⟨assignFrame_clip_idem mh v x y, ih⟩

/-! ## Claims about the mask-clipping step -/

/-- C3: the clipping step of `set_tracking_model_parameters` sets every mask
value at a position whose depth is strictly below `min_height` to the clip
value, then raises every mask value strictly below the clip value to the
clip value; the depth-based override is applied before the generic floor,
so the resulting value at each shared position is
`if depth < min_height then clip else if mask < clip then clip else mask`. -/
theorem mask_clipping_pointwise (mask depth : Frames3) (min_height clip : Int)
    (f r c : Nat) (dx mx : Int)
    (hd : idx3 depth f r c = some dx) (hm : idx3 mask f r c = some mx) :
    idx3 (clip_mask_frames mask depth min_height clip) f r c =
      some (if dx < min_height then clip else if mx < clip then clip else mx) := by
  rw [clip_mask_frames_idx3, hm, hd]
  rfl

/-- Witness for C3 at the spec's end-to-end numbers (`min_height = 10`,
`clip = 5`): a mask value 3 over depth 4 becomes 5, and a mask value 3 over
depth 50 also becomes 5. -/
theorem mask_clipping_pointwise_witness :
    idx3 (clip_mask_frames [[[3, 3]]] [[[4, 50]]] 10 5) 0 0 0 = some 5 ∧
    idx3 (clip_mask_frames [[[3, 3]]] [[[4, 50]]] 10 5) 0 0 1 = some 5 := by
  constructor
  · have h := mask_clipping_pointwise [[[3, 3]]] [[[4, 50]]] 10 5 0 0 0 4 3
      (by decide) (by decide)
    simpa using h
  · have h := mask_clipping_pointwise [[[3, 3]]] [[[4, 50]]] 10 5 0 0 1 50 3
      (by decide) (by decide)
    simpa using h

/-- C7: the mask-clipping step is idempotent — applying it a second time to
the already-clipped mask (same depth frames, same thresholds) returns the
same mask frames — and a mask value already at or above the clip floor at a
position with depth at or above `min_height` is unaffected. -/
theorem mask_clipping_idempotent (mask depth : Frames3) (min_height clip : Int) :
    clip_mask_frames (clip_mask_frames mask depth min_height clip) depth min_height clip
      = clip_mask_frames mask depth min_height clip ∧
    ∀ f r c dx mx, idx3 depth f r c = some dx → idx3 mask f r c = some mx →
      min_height ≤ dx → clip ≤ mx →
      idx3 (clip_mask_frames mask depth min_height clip) f r c = some mx := by
  constructor
  · exact clip_mask_frames_idem_aux min_height clip mask depth
  · intro f r c dx mx hd hm hdx hmx
    rw [clip_mask_frames_idx3, hm, hd]
    simp only [Option.some_bind, Option.map_some']
    refine congrArg some ?_
    split_ifs <;> omega

/-- Witness for C7: a second clipping pass on a concrete result is the
identity, and the in-range value 7 over depth 50 is preserved. -/
theorem mask_clipping_idempotent_witness :
    clip_mask_frames (clip_mask_frames [[[3, 7]]] [[[4, 50]]] 10 5) [[[4, 50]]] 10 5
      = clip_mask_frames [[[3, 7]]] [[[4, 50]]] 10 5 ∧
    idx3 (clip_mask_frames [[[3, 7]]] [[[4, 50]]] 10 5) 0 0 1 = some 7 :=
  ⟨(mask_clipping_idempotent [[[3, 7]]] [[[4, 50]]] 10 5).1,
   (mask_clipping_idempotent [[[3, 7]]] [[[4, 50]]] 10 5).2 0 0 1 50 7
     (by decide) (by decide) (by decide) (by decide)⟩

/-- C10: after the clipping step, every element of the mask frames is at
least the clip value, whatever the depth frames and the original mask
values were. -/
theorem mask_clipping_floor_postcondition (mask depth : Frames3)
    (min_height clip : Int) :
    ∀ fr ∈ clip_mask_frames mask depth min_height clip, ∀ row ∈ fr, ∀ x ∈ row,
      clip ≤ x := by
  intro fr hfr row hrow x hx
  unfold clip_mask_frames maskAssignLT at hfr
  rw [List.zipWith_same] at hfr
  obtain ⟨fa, _, rfl⟩ := List.mem_map.mp hfr
  unfold assignFrame at hrow
  rw [List.zipWith_same] at hrow
  obtain ⟨ra, _, rfl⟩ := List.mem_map.mp hrow
  unfold assignRow at hx
  rw [List.zipWith_same] at hx
  obtain ⟨x0, _, rfl⟩ := List.mem_map.mp hx
  split <;> omega

/-- Witness for C10: in the clipped result of a concrete batch, the surviving
mask value 7 is indeed at least the clip value 5. -/
theorem mask_clipping_floor_postcondition_witness : (5 : Int) ≤ 7 :=
  mask_clipping_floor_postcondition [[[3, 7]]] [[[4, 50]]] 10 5
    [[5, 7]] (by decide) [5, 7] (by decide) 7 (by decide)

/-! ## The tracking-state update and its bounds -/

theorem pyNegIndex_of_le (l : List Int) (k : Nat) (h1 : 1 ≤ k) (h2 : k ≤ l.length) :
    pyNegIndex l k = some (l.getD (l.length - k) 0) := by
  unfold pyNegIndex
  rw [if_pos ⟨h1, h2⟩, List.getD_eq_getElem l 0 (by omega),
    List.getElem?_eq_getElem (by omega)]

theorem pyNegIndex_of_short (l : List Int) (k : Nat) (h : l.length < k) :
    pyNegIndex l k = none := by
  unfold pyNegIndex
  rw [if_neg (by omega)]

theorem set_tracking_eq_some_inv (results : ExtractionResult)
    (min_height clip : Int) (O : Nat) (r : ExtractionResult) (m c : Int)
    (h : set_tracking_model_parameters results min_height clip O = some (r, m, c)) :
    r.parameters_mean = results.parameters_mean ∧
    r.parameters_cov = results.parameters_cov ∧
    pyNegIndex results.parameters_mean (O + 1) = some m ∧
    pyNegIndex results.parameters_cov (O + 1) = some c := by
  simp only [set_tracking_model_parameters] at h
  cases hm : pyNegIndex results.parameters_mean (O + 1) with
  | none => rw [hm] at h; exact absurd h (by simp)
  | some m0 =>
    cases hc : pyNegIndex results.parameters_cov (O + 1) with
    | none => rw [hm, hc] at h; exact absurd h (by simp)
    | some c0 =>
      rw [hm, hc] at h
      simp only [Option.some.injEq, Prod.mk.injEq] at h
      obtain ⟨hr, hm0, hc0⟩ := h
      subst hm0; subst hc0
      rw [← hr]
      exact ⟨rfl, rfl, rfl, rfl⟩

/-- C9: the tracking-state update reads the parameter trace at index
`-(chunk_overlap + 1)`: when both traces have length at least
`chunk_overlap + 1` the access is in bounds and the step succeeds with
exactly those trace entries; when either trace has length at most
`chunk_overlap` the access is out of bounds and the step fails — there is
no guard for the short-trace case. -/
theorem tracking_trace_index_bounds (results : ExtractionResult)
    (min_height clip : Int) (chunk_overlap : Nat) :
    (chunk_overlap + 1 ≤ results.parameters_mean.length →
     chunk_overlap + 1 ≤ results.parameters_cov.length →
      set_tracking_model_parameters results min_height clip chunk_overlap =
        some ({ results with
                  mask_frames :=
                    clip_mask_frames results.mask_frames results.depth_frames
                      min_height clip },
              results.parameters_mean.getD
                (results.parameters_mean.length - (chunk_overlap + 1)) 0,
              results.parameters_cov.getD
                (results.parameters_cov.length - (chunk_overlap + 1)) 0)) ∧
    ((results.parameters_mean.length ≤ chunk_overlap ∨
      results.parameters_cov.length ≤ chunk_overlap) →
      set_tracking_model_parameters results min_height clip chunk_overlap = none) := by
  constructor
  · intro hm hc
    simp only [set_tracking_model_parameters]
    rw [pyNegIndex_of_le _ _ (by omega) hm, pyNegIndex_of_le _ _ (by omega) hc]
  · intro h
    simp only [set_tracking_model_parameters]
    rcases h with h | h
    · rw [pyNegIndex_of_short _ _ (by omega)]
    · rw [pyNegIndex_of_short results.parameters_cov _ (by omega)]
      cases pyNegIndex results.parameters_mean (chunk_overlap + 1) <;> rfl

/-- Witness for C9: with overlap 1, length-3 traces succeed (reading the
second-to-last entries 20 and 50) and length-1 traces make the step fail. -/
theorem tracking_trace_index_bounds_witness :
    set_tracking_model_parameters exResultA 10 5 1 =
      some ({ exResultA with
                mask_frames :=
                  clip_mask_frames exResultA.mask_frames exResultA.depth_frames 10 5 },
            exResultA.parameters_mean.getD (exResultA.parameters_mean.length - 2) 0,
            exResultA.parameters_cov.getD (exResultA.parameters_cov.length - 2) 0) ∧
    set_tracking_model_parameters exResultShort 10 5 1 = none :=
  ⟨(tracking_trace_index_bounds exResultA 10 5 1).1 (by decide) (by decide),
   (tracking_trace_index_bounds exResultShort 10 5 1).2 (Or.inl (by decide))⟩

/-! ## The pipeline driver loop -/

theorem tracking_step_true_inv (res : ExtractionResult) (mh v : Int) (O : Nat)
    (m c : Option Int) (r : ExtractionResult) (m2 c2 : Option Int)
    (h : tracking_step true res mh v O m c = some (r, m2, c2)) :
    ∃ sm sc, set_tracking_model_parameters res mh v O = some (r, sm, sc) ∧
      m2 = some sm ∧ c2 = some sc := by
  unfold tracking_step at h
  rw [if_pos rfl] at h
  cases hs : set_tracking_model_parameters res mh v O with
  | none =>
    rw [hs] at h
    exact Option.noConfusion h
  | some val =>
    obtain ⟨r0, sm, sc⟩ := val
    rw [hs] at h
    have h2 : ((r0, some sm, some sc) : ExtractionResult × Option Int × Option Int)
        = (r, m2, c2) := Option.some.inj h
    cases h2
    exact ⟨sm, sc, rfl, rfl, rfl⟩

theorem process_loop_head_state
    (extract : Option Int → Option Int → List Nat → ExtractionResult)
    (utm : Bool) (mh v : Int) (O : Nat) (flip : Bool) (scal : List String)
    (h5 : Bool) (cr cc : Nat) (m c : Option Int) (p : PipeState) (i : Nat)
    (bs : List (List Nat))
    (h : 0 < (process_extract_batches_loop extract utm mh v O flip scal h5 cr cc
        m c p i bs).records.length) :
    ((process_extract_batches_loop extract utm mh v O flip scal h5 cr cc
        m c p i bs).records.getD 0 defaultRecord).inMean = m ∧
    ((process_extract_batches_loop extract utm mh v O flip scal h5 cr cc
        m c p i bs).records.getD 0 defaultRecord).inCov = c := by
  cases bs with
  | nil => simp [process_extract_batches_loop] at h
  | cons fr rest =>
    simp only [process_extract_batches_loop] at h ⊢
    cases hstep : tracking_step utm (extract m c fr) mh v O m c with
    | none => rw [hstep] at h; simp at h
    | some val =>
      obtain ⟨r, m2, c2⟩ := val
      exact ⟨rfl, rfl⟩

theorem process_tracking_chain_loop
    (extract : Option Int → Option Int → List Nat → ExtractionResult)
    (mh v : Int) (O : Nat) (flip : Bool) (scal : List String)
    (h5 : Bool) (cr cc : Nat) :
    ∀ (bs : List (List Nat)) (m c : Option Int) (p : PipeState) (i k : Nat),
      k + 1 < (process_extract_batches_loop extract true mh v O flip scal h5 cr cc
        m c p i bs).records.length →
      ((process_extract_batches_loop extract true mh v O flip scal h5 cr cc
          m c p i bs).records.getD (k + 1) defaultRecord).inMean =
        pyNegIndex ((process_extract_batches_loop extract true mh v O flip scal h5 cr cc
          m c p i bs).records.getD k defaultRecord).results.parameters_mean (O + 1) ∧
      ((process_extract_batches_loop extract true mh v O flip scal h5 cr cc
          m c p i bs).records.getD (k + 1) defaultRecord).inCov =
        pyNegIndex ((process_extract_batches_loop extract true mh v O flip scal h5 cr cc
          m c p i bs).records.getD k defaultRecord).results.parameters_cov (O + 1)
  | [], m, c, p, i, k => by
    intro h
    simp [process_extract_batches_loop] at h
  | fr :: rest, m, c, p, i, k => by
    intro h
    simp only [process_extract_batches_loop] at h ⊢
    cases hstep : tracking_step true (extract m c fr) mh v O m c with
    | none => rw [hstep] at h; simp at h
    | some val =>
      obtain ⟨r, m2, c2⟩ := val
      rw [hstep] at h
      dsimp only
      have h2 : k + 1 < (process_extract_batches_loop extract true mh v O flip scal h5
          cr cc m2 c2 (write_frames_preview p) (i + 1) rest).records.length + 1 := by
        simpa using h
      cases k with
      | zero =>
        obtain ⟨sm, sc, hset, hm2, hc2⟩ := tracking_step_true_inv _ _ _ _ _ _ _ _ _ hstep
        obtain ⟨hrm, hrc, hpm, hpc⟩ := set_tracking_eq_some_inv _ _ _ _ _ _ _ hset
        have hlen : 0 < (process_extract_batches_loop extract true mh v O flip scal h5
            cr cc m2 c2 (write_frames_preview p) (i + 1) rest).records.length := by
          omega
        have hhead := process_loop_head_state extract true mh v O flip scal h5 cr cc
          m2 c2 (write_frames_preview p) (i + 1) rest hlen
        simp only [List.getD_cons_succ, List.getD_cons_zero]
        constructor
        · rw [hhead.1, hm2]
          show some sm = pyNegIndex r.parameters_mean (O + 1)
          rw [hrm, hpm]
        · rw [hhead.2, hc2]
          show some sc = pyNegIndex r.parameters_cov (O + 1)
          rw [hrc, hpc]
      | succ k0 =>
        simp only [List.getD_cons_succ]
        exact process_tracking_chain_loop extract mh v O flip scal h5 cr cc rest
          m2 c2 (write_frames_preview p) (i + 1) k0 (by omega)

/-- C2: with `use_tracking_model` on, the tracking state passed into batch
`k+1` of a run (as `tracking_init_mean` / `tracking_init_cov` of its
`extract_chunk` call) equals the value at index `-(chunk_overlap + 1)` of
the `mean` / `cov` parameter traces of batch `k`'s results. -/
theorem tracking_state_threading
    (extract : Option Int → Option Int → List Nat → ExtractionResult)
    (min_height clip : Int) (chunk_overlap : Nat) (flip : Bool)
    (scalars : List String) (h5 : Bool) (cr cc : Nat)
    (m0 c0 : Option Int) (batches : List (List Nat)) (k : Nat)
    (h : k + 1 < (process_extract_batches extract true min_height clip chunk_overlap
        flip scalars h5 cr cc m0 c0 batches).records.length) :
    ((process_extract_batches extract true min_height clip chunk_overlap
        flip scalars h5 cr cc m0 c0 batches).records.getD (k + 1) defaultRecord).inMean =
      pyNegIndex ((process_extract_batches extract true min_height clip chunk_overlap
        flip scalars h5 cr cc m0 c0 batches).records.getD k
          defaultRecord).results.parameters_mean (chunk_overlap + 1) ∧
    ((process_extract_batches extract true min_height clip chunk_overlap
        flip scalars h5 cr cc m0 c0 batches).records.getD (k + 1) defaultRecord).inCov =
      pyNegIndex ((process_extract_batches extract true min_height clip chunk_overlap
        flip scalars h5 cr cc m0 c0 batches).records.getD k
          defaultRecord).results.parameters_cov (chunk_overlap + 1) :=
  process_tracking_chain_loop extract min_height clip chunk_overlap flip scalars h5 cr cc
    batches m0 c0 { opened := false, opens := 0, closes := 0 } 0 k h

/-- Witness for C2: in the concrete three-batch run `exRunA` with overlap 1,
the state passed into batch 1 is read off batch 0's parameter traces at
index -2. -/
theorem tracking_state_threading_witness :
    1 < exRunA.records.length ∧
    ((exRunA.records.getD 1 defaultRecord).inMean =
        pyNegIndex ((exRunA.records.getD 0 defaultRecord).results.parameters_mean) 2 ∧
      (exRunA.records.getD 1 defaultRecord).inCov =
        pyNegIndex ((exRunA.records.getD 0 defaultRecord).results.parameters_cov) 2) :=
  ⟨by decide,
   tracking_state_threading exExtractA 10 5 1 true ["area"] true 0 0 none none
     [[0, 1], [1, 2], [2, 3]] 0 (by decide)⟩

theorem process_offsets_loop
    (extract : Option Int → Option Int → List Nat → ExtractionResult)
    (utm : Bool) (mh v : Int) (O : Nat) (flip : Bool) (scal : List String)
    (h5 : Bool) (cr cc : Nat) :
    ∀ (bs : List (List Nat)) (m c : Option Int) (p : PipeState) (i k : Nat),
      k < (process_extract_batches_loop extract utm mh v O flip scal h5 cr cc
        m c p i bs).records.length →
      ((process_extract_batches_loop extract utm mh v O flip scal h5 cr cc
          m c p i bs).records.getD k defaultRecord).offset = (if 0 < i + k then O else 0) ∧
      ((process_extract_batches_loop extract utm mh v O flip scal h5 cr cc
          m c p i bs).records.getD k defaultRecord).committedRange =
        (bs.getD k []).drop ((process_extract_batches_loop extract utm mh v O flip scal h5
          cr cc m c p i bs).records.getD k defaultRecord).offset ∧
      ((process_extract_batches_loop extract utm mh v O flip scal h5 cr cc
          m c p i bs).records.getD k defaultRecord).h5write =
        (if h5 then
          some (write_extracted_chunk_to_h5
            ((process_extract_batches_loop extract utm mh v O flip scal h5 cr cc
              m c p i bs).records.getD k defaultRecord).results flip scal
            ((process_extract_batches_loop extract utm mh v O flip scal h5 cr cc
              m c p i bs).records.getD k defaultRecord).committedRange
            ((process_extract_batches_loop extract utm mh v O flip scal h5 cr cc
              m c p i bs).records.getD k defaultRecord).offset)
         else none)
  | [], m, c, p, i, k => by
    intro h
    simp [process_extract_batches_loop] at h
  | fr :: rest, m, c, p, i, k => by
    intro h
    simp only [process_extract_batches_loop] at h ⊢
    cases hstep : tracking_step utm (extract m c fr) mh v O m c with
    | none => rw [hstep] at h; simp at h
    | some val =>
      obtain ⟨r, m2, c2⟩ := val
      rw [hstep] at h
      dsimp only
      cases k with
      | zero =>
        simp only [List.getD_cons_zero]
        exact ⟨by simp, trivial, trivial⟩
      | succ k0 =>
        simp only [List.getD_cons_succ]
        have h2 : k0 + 1 < (process_extract_batches_loop extract utm mh v O flip scal h5
            cr cc m2 c2 (write_frames_preview p) (i + 1) rest).records.length + 1 := by
          simpa using h
        have ih := process_offsets_loop extract utm mh v O flip scal h5 cr cc rest
          m2 c2 (write_frames_preview p) (i + 1) k0 (by omega)
        rw [show i + (k0 + 1) = i + 1 + k0 from by omega]
        exact ih

/-- C5: for every batch index `k` of a run, the committing offset is
`chunk_overlap` when `k > 0` and `0` when `k = 0`; the committed frame
range is the batch's range with its first `offset` indices dropped; and
the h5 write of the batch slices every array/series of the extraction
results from `offset` onward (scalars, depth frames, mask frames, and —
when a flip classifier is configured — flips). -/
theorem overlap_reconciler_offsets
    (extract : Option Int → Option Int → List Nat → ExtractionResult)
    (utm : Bool) (min_height clip : Int) (chunk_overlap : Nat) (flip : Bool)
    (scalars : List String) (h5 : Bool) (cr cc : Nat)
    (m0 c0 : Option Int) (batches : List (List Nat)) (k : Nat) (a : BatchRecord)
    (ha : (process_extract_batches extract utm min_height clip chunk_overlap
        flip scalars h5 cr cc m0 c0 batches).records.getD k defaultRecord = a)
    (hk : k < (process_extract_batches extract utm min_height clip chunk_overlap
        flip scalars h5 cr cc m0 c0 batches).records.length) :
    a.offset = (if 0 < k then chunk_overlap else 0) ∧
    a.committedRange = (batches.getD k []).drop a.offset ∧
    a.h5write = (if h5 then
        some (write_extracted_chunk_to_h5 a.results flip scalars a.committedRange a.offset)
      else none) ∧
    (a.h5write.map fun w => w.framesWrite) =
      (if h5 then some (a.committedRange, a.results.depth_frames.drop a.offset) else none) ∧
    (a.h5write.map fun w => w.maskWrite) =
      (if h5 then some (a.committedRange, a.results.mask_frames.drop a.offset) else none) ∧
    (a.h5write.map fun w => w.scalarWrites) =
      (if h5 then
        some (scalars.map fun s => (s, a.committedRange, (a.results.scalars s).drop a.offset))
      else none) ∧
    (a.h5write.map fun w => w.flipsWrite) =
      (if h5 then
        some (if flip then some (a.committedRange, a.results.flips.drop a.offset) else none)
      else none) := by
  subst ha
  simp only [process_extract_batches]
  have h := process_offsets_loop extract utm min_height clip chunk_overlap flip scalars
    h5 cr cc batches m0 c0 { opened := false, opens := 0, closes := 0 } 0 k hk
  obtain ⟨h1, h2, h3⟩ := h
  rw [Nat.zero_add] at h1
  refine ⟨h1, h2, h3, ?_, ?_, ?_, ?_⟩ <;> rw [h3] <;> cases h5 <;> rfl

/-- Witness for C5: batch 1 of the concrete run `exRunA` (overlap 1) commits
with offset 1 and committed range `[2]` out of its batch range `[1, 2]`. -/
theorem overlap_reconciler_offsets_witness :
    (exRunA.records.getD 1 defaultRecord).offset = 1 ∧
    (exRunA.records.getD 1 defaultRecord).committedRange = [2] := by
  have h := overlap_reconciler_offsets exExtractA true 10 5 1 true ["area"] true 0 0
    none none [[0, 1], [1, 2], [2, 3]] 1 (exRunA.records.getD 1 defaultRecord) rfl
    (by decide)
  constructor
  · rw [h.1]
    decide
  · rw [h.2.1, h.1]
    decide

theorem process_pipe_loop
    (extract : Option Int → Option Int → List Nat → ExtractionResult)
    (utm : Bool) (mh v : Int) (O : Nat) (flip : Bool) (scal : List String)
    (h5 : Bool) (cr cc : Nat) :
    ∀ (bs : List (List Nat)) (m c : Option Int) (p : PipeState) (i : Nat)
      (out : DriverOutput),
      out = process_extract_batches_loop extract utm mh v O flip scal h5 cr cc
        m c p i bs →
      (out.ok = true →
        out.pipe.closes = p.closes + (if out.pipe.opened then 1 else 0)) ∧
      (out.ok = false → out.pipe.closes = p.closes) ∧
      out.pipe.opens = p.opens + (if p.opened then 0
        else if out.pipe.opened then 1 else 0) ∧
      (p.opened = true → out.pipe.opened = true) ∧
      (out.ok = false → out.records.length < bs.length)
  | [], m, c, p, i, out => by
    intro hout
    subst hout
    simp only [process_extract_batches_loop]
    by_cases hp : p.opened <;> simp [hp]
  | fr :: rest, m, c, p, i, out => by
    intro hout
    subst hout
    simp only [process_extract_batches_loop]
    split
    all_goals
      split
      · refine ⟨fun hok => by simp at hok, fun _ => rfl, ?_, fun hp => hp, fun _ => by simp⟩
        by_cases hp : p.opened <;> simp [hp]
      · rename_i r m2 c2 heq
        obtain ⟨ihA, ihB, ihC, ihD, ihE⟩ :=
          process_pipe_loop extract utm mh v O flip scal h5 cr cc rest
            m2 c2 (write_frames_preview p) (i + 1) _ rfl
        have hcl : (write_frames_preview p).closes = p.closes := by
          by_cases hp : p.opened <;> simp [write_frames_preview, hp]
        have hpo : (write_frames_preview p).opened = true := by
          by_cases hp : p.opened <;> simp [write_frames_preview, hp]
        have hinner := ihD hpo
        dsimp only
        refine ⟨fun hok => ?_, fun hok => ?_, ?_, fun _ => hinner, fun hok => ?_⟩
        · have h1 := ihA hok
          rw [hcl] at h1
          exact h1
        · have h1 := ihB hok
          rw [hcl] at h1
          exact h1
        · by_cases hp : p.opened
          · have hop : (write_frames_preview p).opens = p.opens := by
              simp [write_frames_preview, hp]
            rw [hop, hpo] at ihC
            simp only [if_pos] at ihC
            simp [hp, hinner]
            simpa using ihC
          · have hop : (write_frames_preview p).opens = p.opens + 1 := by
              simp [write_frames_preview, hp]
            rw [hop, hpo] at ihC
            simp [hp, hinner]
            simpa using ihC
        · have hlt := ihE hok
          simp only [List.length_cons]
          omega

/-- C4 (amended): `process_extract_batches` has no exception handler.  An
exception raised while processing a batch stops the loop immediately (no
further batch is processed) and propagates; on that path the video pipe is
never closed (`communicate` at the end of the function is not reached).
Only on normal completion is an opened pipe closed, exactly once; the pipe
is spawned at most once over a run. -/
theorem video_pipe_close_on_success_only
    (extract : Option Int → Option Int → List Nat → ExtractionResult)
    (utm : Bool) (min_height clip : Int) (chunk_overlap : Nat) (flip : Bool)
    (scalars : List String) (h5 : Bool) (cr cc : Nat)
    (m0 c0 : Option Int) (batches : List (List Nat)) :
    ((process_extract_batches extract utm min_height clip chunk_overlap
        flip scalars h5 cr cc m0 c0 batches).ok = true →
      (process_extract_batches extract utm min_height clip chunk_overlap
        flip scalars h5 cr cc m0 c0 batches).pipe.closes =
        (if (process_extract_batches extract utm min_height clip chunk_overlap
          flip scalars h5 cr cc m0 c0 batches).pipe.opened then 1 else 0)) ∧
    ((process_extract_batches extract utm min_height clip chunk_overlap
        flip scalars h5 cr cc m0 c0 batches).ok = false →
      (process_extract_batches extract utm min_height clip chunk_overlap
        flip scalars h5 cr cc m0 c0 batches).pipe.closes = 0 ∧
      (process_extract_batches extract utm min_height clip chunk_overlap
        flip scalars h5 cr cc m0 c0 batches).records.length < batches.length) ∧
    (process_extract_batches extract utm min_height clip chunk_overlap
      flip scalars h5 cr cc m0 c0 batches).pipe.opens ≤ 1 := by
  simp only [process_extract_batches]
  obtain ⟨hA, hB, hC, _, hE⟩ :=
    process_pipe_loop extract utm min_height clip chunk_overlap flip scalars h5 cr cc
      batches m0 c0 { opened := false, opens := 0, closes := 0 } 0 _ rfl
  refine ⟨fun hok => ?_, fun hbad => ⟨?_, hE hbad⟩, ?_⟩
  · have h1 := hA hok
    simpa using h1
  · have h1 := hB hbad
    simpa using h1
  · rw [hC]
    by_cases ho : (process_extract_batches_loop extract utm min_height clip chunk_overlap
        flip scalars h5 cr cc m0 c0 { opened := false, opens := 0, closes := 0 } 0
        batches).pipe.opened <;> simp [ho]

/-- Witness for C4's amended claim: the successful concrete run `exRunA`
opened the pipe and closed it exactly once. -/
theorem video_pipe_close_on_success_only_witness :
    exRunA.ok = true ∧
    exRunA.pipe.closes = (if exRunA.pipe.opened then 1 else 0) :=
  ⟨by decide,
   (video_pipe_close_on_success_only exExtractA true 10 5 1 true ["area"] true 0 0
     none none [[0, 1], [1, 2], [2, 3]]).1 (by decide)⟩

/-- Counterexample to C4 as stated: in the concrete run `exRunFail` the
second batch raises (short parameter trace) after the first batch opened
the preview pipe; the driver stops and propagates, but the opened pipe has
been closed zero times — the pipe is not closed on the exceptional exit
path. -/
theorem video_pipe_not_closed_on_error_cex :
    exRunFail.ok = false ∧
    exRunFail.pipe.opened = true ∧
    exRunFail.pipe.opens = 1 ∧
    exRunFail.pipe.closes = 0 := by
  refine ⟨?_, ?_, ?_, ?_⟩ <;> decide

/-! ## The preview compositor -/

theorem getD_map_range {α : Type} (n : Nat) (f : Nat → α) (i : Nat) (d : α) (h : i < n) :
    ((List.range n).map f).getD i d = f i := by
  rw [List.getD_eq_getElem _ d (by simpa using h), List.getElem_map, List.getElem_range]

theorem composite_frame_spec (cr cc rows cols : Nat) (depth chunk : List (List Int)) :
    (composite_frame cr cc rows cols depth chunk).length = rows + cr ∧
    (∀ row ∈ composite_frame cr cc rows cols depth chunk, row.length = cols + cc) ∧
    ∀ r c, r < rows + cr → c < cols + cc →
      ((composite_frame cr cc rows cols depth chunk).getD r []).getD c 0 =
        (if cr ≤ r ∧ cc ≤ c then toUInt16Val ((chunk.getD (r - cr) []).getD (c - cc) 0)
         else if r < cr ∧ c < cc then toUInt16Val ((depth.getD r []).getD c 0)
         else 0) := by
  refine ⟨?_, ?_, ?_⟩
  · simp [composite_frame]
  · intro row hrow
    unfold composite_frame at hrow
    obtain ⟨r, _, rfl⟩ := List.mem_map.mp hrow
    simp
  · intro r c hr hc
    unfold composite_frame
    rw [getD_map_range _ _ _ _ hr, getD_map_range _ _ _ _ hc]

theorem toUInt16Val_getD_eq (fr : List (List Int)) (rows cols : Nat)
    (hlen : fr.length = rows) (hrow : ∀ row ∈ fr, row.length = cols)
    (hb : ∀ row ∈ fr, ∀ x ∈ row, 0 ≤ x ∧ x < 65536)
    (r c : Nat) (hr : r < rows) (hc : c < cols) :
    toUInt16Val ((fr.getD r []).getD c 0) = (fr.getD r []).getD c 0 := by
  have hr2 : r < fr.length := by omega
  rw [List.getD_eq_getElem _ [] hr2]
  have hmemr : fr[r] ∈ fr := List.getElem_mem hr2
  have hc2 : c < fr[r].length := by rw [hrow _ hmemr]; exact hc
  rw [List.getD_eq_getElem _ 0 hc2]
  have hmemx : fr[r][c] ∈ fr[r] := List.getElem_mem hc2
  obtain ⟨hge, hlt⟩ := hb _ hmemr _ hmemx
  unfold toUInt16Val
  exact Int.emod_eq_of_lt hge hlt

/-- C6: for committed chunk frames of shape `(n, rows, cols)` and depth
(subject) frames of crop shape `(cr, cc)` with in-range (uint16) pixel
values, `make_output_movie` produces exactly one output frame per
committed index, each of shape `(rows + cr, cols + cc)`, with the cropped
subject frame in the top-left `cr x cc` block, the full chunk frame in the
bottom-right `rows x cols` block, and zero everywhere else. -/
theorem preview_compositor_layout (results : ExtractionResult)
    (cr cc offset rows cols : Nat)
    (hrows : 0 < rows)
    (hlen : (results.depth_frames.drop offset).length = (results.chunk.drop offset).length)
    (hchunk : ∀ fr ∈ results.chunk.drop offset,
      fr.length = rows ∧ ∀ row ∈ fr, row.length = cols)
    (hdepth : ∀ fr ∈ results.depth_frames.drop offset,
      fr.length = cr ∧ ∀ row ∈ fr, row.length = cc)
    (hcv : ∀ fr ∈ results.chunk.drop offset, ∀ row ∈ fr, ∀ x ∈ row, 0 ≤ x ∧ x < 65536)
    (hdv : ∀ fr ∈ results.depth_frames.drop offset, ∀ row ∈ fr, ∀ x ∈ row,
      0 ≤ x ∧ x < 65536) :
    (make_output_movie results cr cc offset).length =
      (results.chunk.drop offset).length ∧
    ∀ j, j < (make_output_movie results cr cc offset).length →
      ((make_output_movie results cr cc offset).getD j []).length = rows + cr ∧
      (∀ row ∈ (make_output_movie results cr cc offset).getD j [],
        row.length = cols + cc) ∧
      ∀ r c, r < rows + cr → c < cols + cc →
        (((make_output_movie results cr cc offset).getD j []).getD r []).getD c 0 =
          (if cr ≤ r ∧ cc ≤ c then
            (((results.chunk.drop offset).getD j []).getD (r - cr) []).getD (c - cc) 0
          else if r < cr ∧ c < cc then
            (((results.depth_frames.drop offset).getD j []).getD r []).getD c 0
          else 0) := by
  have hlen2 : (make_output_movie results cr cc offset).length =
      (results.chunk.drop offset).length := by
    simp only [make_output_movie]
    rw [List.length_zipWith, hlen, min_self]
  refine ⟨hlen2, ?_⟩
  intro j hj
  rw [hlen2] at hj
  have hne : results.chunk.drop offset ≠ [] := by
    intro he
    rw [he] at hj
    simp at hj
  have hhead : (results.chunk.drop offset).headD [] ∈ results.chunk.drop offset := by
    cases hcs : results.chunk.drop offset with
    | nil => exact absurd hcs hne
    | cons f0 t => simp
  have hrows2 : ((results.chunk.drop offset).headD []).length = rows := (hchunk _ hhead).1
  have hcols2 : (((results.chunk.drop offset).headD []).headD []).length = cols := by
    have h0 : ((results.chunk.drop offset).headD []).headD [] ∈
        (results.chunk.drop offset).headD [] := by
      cases hf : ((results.chunk.drop offset).headD []) with
      | nil =>
        rw [hf] at hrows2
        simp at hrows2
        omega
      | cons r0 t => simp
    exact (hchunk _ hhead).2 _ h0
  have hjd : j < (results.depth_frames.drop offset).length := by rw [hlen]; exact hj
  have hout : (make_output_movie results cr cc offset).getD j [] =
      composite_frame cr cc rows cols ((results.depth_frames.drop offset).getD j [])
        ((results.chunk.drop offset).getD j []) := by
    simp only [make_output_movie]
    have hzb : j < (List.zipWith (fun dfr chfr => composite_frame cr cc
        ((results.chunk.drop offset).headD []).length
        (((results.chunk.drop offset).headD []).headD []).length dfr chfr)
        (results.depth_frames.drop offset) (results.chunk.drop offset)).length := by
      rw [List.length_zipWith, hlen, min_self]
      exact hj
    rw [List.getD_eq_getElem _ [] hzb, List.getElem_zipWith, ← hrows2, ← hcols2,
      List.getD_eq_getElem _ [] hjd, List.getD_eq_getElem _ [] hj]
  obtain ⟨s1, s2, s3⟩ := composite_frame_spec cr cc rows cols
    ((results.depth_frames.drop offset).getD j [])
    ((results.chunk.drop offset).getD j [])
  have hmemc : (results.chunk.drop offset).getD j [] ∈ results.chunk.drop offset := by
    rw [List.getD_eq_getElem _ [] hj]
    exact List.getElem_mem hj
  have hmemd : (results.depth_frames.drop offset).getD j [] ∈
      results.depth_frames.drop offset := by
    rw [List.getD_eq_getElem _ [] hjd]
    exact List.getElem_mem hjd
  refine ⟨by rw [hout]; exact s1, by rw [hout]; exact s2, ?_⟩
  intro r c hr hc
  rw [hout, s3 r c hr hc]
  split_ifs with h1 h2
  · exact toUInt16Val_getD_eq _ rows cols (hchunk _ hmemc).1 (hchunk _ hmemc).2
      (hcv _ hmemc) (r - cr) (c - cc) (by omega) (by omega)
  · exact toUInt16Val_getD_eq _ cr cc (hdepth _ hmemd).1 (hdepth _ hmemd).2
      (hdv _ hmemd) r c (by omega) (by omega)
  · rfl

/-- Witness for C6: for the concrete results `exResultA` (1x1 chunk frames
of value 2, 1x1 depth frames of value 1, crop size 1x1, offset 1) there is
one 2x2 output frame per committed index: depth at the top-left corner,
chunk at the bottom-right corner. -/
theorem preview_compositor_layout_witness :
    (make_output_movie exResultA 1 1 1).length = 3 ∧
    (((make_output_movie exResultA 1 1 1).getD 0 []).getD 0 []).getD 0 0 = 1 ∧
    (((make_output_movie exResultA 1 1 1).getD 0 []).getD 1 []).getD 1 0 = 2 := by
  have h := preview_compositor_layout exResultA 1 1 1 1 1 (by decide)
    (by decide) (by decide) (by decide) (by decide) (by decide)
  refine ⟨?_, ?_, ?_⟩
  · rw [h.1]
    decide
  · have h2 := (h.2 0 (by decide)).2.2 0 0 (by decide) (by decide)
    rw [h2]
    decide
  · have h2 := (h.2 0 (by decide)).2.2 1 1 (by decide) (by decide)
    rw [h2]
    decide

/-! ## The multi-session local driver -/

/-- C8: `run_local_extract` runs every session: it yields one log entry per
session (in order), recording for each the session and its outcome — in
particular a raised exception is caught and logged as its message, and the
remaining sessions are still processed. -/
theorem local_extract_continues_on_error
    (extract_command : String → Except String Unit) :
    ∀ (to_extract : List String),
      (run_local_extract extract_command to_extract).length = to_extract.length ∧
      ∀ (k : Nat) (s : String), to_extract[k]? = some s →
        (run_local_extract extract_command to_extract)[k]? =
          some (s, session_outcome (extract_command s))
  | [] => ⟨rfl, by intro k s h; simp at h⟩
  | ext :: rest => by
    obtain ⟨ih1, ih2⟩ := local_extract_continues_on_error extract_command rest
    constructor
    · simp [run_local_extract, ih1]
    · intro k s hs
      cases k with
      | zero =>
        rw [List.getElem?_cons_zero] at hs
        obtain rfl := Option.some.inj hs
        simp [run_local_extract]
      | succ k0 =>
        rw [List.getElem?_cons_succ] at hs
        simpa [run_local_extract] using ih2 k0 s hs

/-- Witness for C8: with a stub command that raises on session "bad", the
three-session run logs all three sessions, records the error message for
"bad", and still processes the following session. -/
theorem local_extract_continues_on_error_witness :
    (run_local_extract exCommand ["good", "bad", "later"]).length = 3 ∧
    (run_local_extract exCommand ["good", "bad", "later"])[1]? =
      some ("bad", session_outcome (exCommand "bad")) ∧
    (run_local_extract exCommand ["good", "bad", "later"])[2]? =
      some ("later", session_outcome (exCommand "later")) :=
  ⟨(local_extract_continues_on_error exCommand ["good", "bad", "later"]).1,
   (local_extract_continues_on_error exCommand ["good", "bad", "later"]).2 1 "bad" rfl,
   (local_extract_continues_on_error exCommand ["good", "bad", "later"]).2 2 "later" rfl⟩

/-! ## The batch scheduler and the overlap reconciler -/

theorem drop_range' (m : Nat) : ∀ (a n : Nat),
    (List.range' a n).drop m = List.range' (a + m) (n - m) := by
  induction m with
  | zero => intro a n; simp
  | succ m ih =>
    intro a n
    cases n with
    | zero => simp
    | succ n0 =>
      rw [List.range'_succ, List.drop_succ_cons, ih]
      congr 1 <;> omega

theorem committed_cum (N C O : Nat) (hOC : O < C) : ∀ (j : Nat),
    ((List.range (j + 1)).map (committedRange N C O)).flatten =
      List.range (min (batchStart C O j + C) N)
  | 0 => by
    have h0 : batchStart C O 0 = 0 := by simp [batchStart]
    simp [committedRange, batchRange, h0, List.range_eq_range']
  | j + 1 => by
    rw [List.range_succ, List.map_append, List.flatten_append,
      committed_cum N C O hOC j]
    simp only [List.map_cons, List.map_nil, List.flatten_cons, List.flatten_nil,
      List.append_nil]
    rw [show committedRange N C O (j + 1) = (batchRange N C O (j + 1)).drop O from by
      simp [committedRange]]
    rw [batchRange, drop_range']
    have hs : batchStart C O j + C = batchStart C O (j + 1) + O := by
      simp only [batchStart, Nat.succ_mul]
      omega
    by_cases hcase : batchStart C O (j + 1) + O ≤ N
    · have h1 : min (batchStart C O j + C) N = batchStart C O (j + 1) + O := by
        rw [hs]; omega
      have h2 : min (batchStart C O (j + 1)) N = batchStart C O (j + 1) := by omega
      rw [h1, h2]
      have hL : min (batchStart C O (j + 1) + C) N - batchStart C O (j + 1) - O =
          min (batchStart C O (j + 1) + C) N - (batchStart C O (j + 1) + O) := by
        omega
      rw [hL]
      have happ := List.range'_append 0 (batchStart C O (j + 1) + O)
        (min (batchStart C O (j + 1) + C) N - (batchStart C O (j + 1) + O)) 1
      simp only [Nat.zero_add, Nat.one_mul] at happ
      rw [List.range_eq_range', happ]
      rw [show min (batchStart C O (j + 1) + C) N - (batchStart C O (j + 1) + O) +
          (batchStart C O (j + 1) + O) = min (batchStart C O (j + 1) + C) N from by
        omega]
      rw [List.range_eq_range']
    · have h1 : min (batchStart C O j + C) N = N := by rw [hs]; omega
      have h3 : min (batchStart C O (j + 1) + C) N - min (batchStart C O (j + 1)) N -
          O = 0 := by omega
      have h2 : min (batchStart C O (j + 1) + C) N = N := by omega
      rw [h1, h3, h2]
      simp

/-- C1: for every `N`, `C` and overlap `0 ≤ O < C`, the concatenation of the
committed ranges of all scheduled batches (range 0 untouched, every later
range with its first `O` indices dropped) is exactly `[0, N)`, each index
appearing exactly once; in particular for `N = 25`, `C = 10`, `O = 2` the
committed ranges are `{0..9}`, `{10..17}` and `{18..24}`. -/
theorem committed_ranges_partition :
    (∀ N C O, O < C → allCommitted N C O = List.range N) ∧
    allCommitted 25 10 2 = List.range 25 ∧
    committedRange 25 10 2 0 = List.range' 0 10 ∧
    committedRange 25 10 2 1 = List.range' 10 8 ∧
    committedRange 25 10 2 2 = List.range' 18 7 := by
  refine ⟨?_, by decide, by decide, by decide, by decide⟩
  intro N C O hOC
  unfold allCommitted numBatches
  by_cases hN : N = 0
  · subst hN
    simp
  · rw [if_neg hN]
    obtain ⟨q, hq⟩ : ∃ q, q = (N - O + (C - O) - 1) / (C - O) := ⟨_, rfl⟩
    rw [← hq]
    obtain ⟨j, hj⟩ : ∃ j, max 1 q = j + 1 := ⟨max 1 q - 1, by omega⟩
    rw [hj, committed_cum N C O hOC j]
    congr 1
    by_cases hq1 : q = 0
    · have hj0 : j = 0 := by omega
      subst hj0
      have hb0 : batchStart C O 0 = 0 := by simp [batchStart]
      rw [hb0]
      have hsmall : N - O + (C - O) - 1 < C - O :=
        (Nat.div_eq_zero_iff (by omega)).mp (hq.symm.trans hq1)
      omega
    · have hj2 : j = q - 1 := by omega
      subst hj2
      have hb : batchStart C O (q - 1) = (C - O) * q - (C - O) := by
        simp only [batchStart]
        rw [Nat.sub_one_mul, Nat.mul_comm]
      rw [hb]
      have hdm := Nat.div_add_mod (N - O + (C - O) - 1) (C - O)
      have hmod := Nat.mod_lt (N - O + (C - O) - 1) (show 0 < C - O by omega)
      rw [← hq] at hdm
      have hPge : C - O ≤ (C - O) * q := Nat.le_mul_of_pos_right _ (by omega)
      omega

/-- Witness for C1, at the spec's end-to-end numbers. -/
theorem committed_ranges_partition_witness :
    2 < 10 ∧ allCommitted 25 10 2 = List.range 25 :=
  ⟨by decide, committed_ranges_partition.1 25 10 2 (by decide)⟩
